import Mathlib

/-!
Verification of the two core text-processing utilities of the
plugin-digitaltwin repository:

* `parseXml` (src/utils.ts): a lenient XML-like parser producing a nested
  key/value tree, with a DOM walk in full mode and a regex-based degraded
  fallback (`parseWithRegexFallback` / `parseFlatByRegex`).
* the schema introspection serializer (src/utils_zod.ts): `unwrap`,
  `typeToString`, `getDescription`, `collectFields`, `schemaToPrompt` over
  zod v3 style schema values.

The JavaScript functions are shallowly embedded as total Lean functions.
JS runtime values produced by the parser are modelled by `JsonVal`; JS
objects are association lists in insertion order.  JS numbers produced by
`Number(s)` are modelled exactly as scaled decimals (an integer numerator
with a power-of-ten denominator, kept unreduced) plus the two infinities;
IEEE-754 rounding and overflow of huge exponents to infinity are not
modelled (every value appearing in the theorems below is a small integer,
where the two semantics agree).  String trimming and the regex classes
`\s`, `[A-Za-z0-9:_-]` are modelled over their ASCII fragments.
-/

/-- The value of a JS `Number(s)` conversion that did not yield `NaN`:
either an exact finite value `num / den` (with `den` a power of ten as
produced by the decimal grammar, kept unreduced), or an infinity. -/
inductive JsNum where
  | finite (num : Int) (den : Nat)
  | inf
  | negInf
deriving DecidableEq

/-- A JS runtime value as produced by `parseXml`: primitives, arrays and
objects (association lists in insertion order). -/
inductive JsonVal where
  | null
  | bool (b : Bool)
  | num (n : JsNum)
  | str (s : String)
  | arr (xs : List JsonVal)
  | obj (fields : List (String × JsonVal))

/-- JS objects as built by the parser: key/value pairs in insertion order. -/
abbrev Obj := List (String × JsonVal)

/-- ASCII fragment of the JS whitespace class used by `String.prototype.trim`
and the regex class `\s`. -/
def isJsWs (c : Char) : Bool :=
  c = ' ' || c = '\t' || c = '\n' || c = '\r' || c = '\x0b' || c = '\x0c'

/-- Drop JS whitespace from both ends of a character list. -/
def trimL (l : List Char) : List Char :=
  ((l.dropWhile isJsWs).reverse.dropWhile isJsWs).reverse

/-- JS `String.prototype.trim` (ASCII whitespace fragment). -/
def jsTrim (s : String) : String :=
  String.mk (trimL s.data)

/-- Numeric value of a decimal digit string (most significant first). -/
def digitsToNat (l : List Char) : Nat :=
  l.foldl (fun a c => 10 * a + (c.toNat - '0'.toNat)) 0

/-- Value of one digit in base `b`, or `b` (i.e. out of range) if invalid. -/
def digitVal (b : Nat) (c : Char) : Nat :=
  if c.isDigit then min (c.toNat - '0'.toNat) b
  else if 'a' ≤ c ∧ c ≤ 'z' then min (c.toNat - 'a'.toNat + 10) b
  else if 'A' ≤ c ∧ c ≤ 'Z' then min (c.toNat - 'A'.toNat + 10) b
  else b

/-- Numeric value of a digit string in base `b`. -/
def radixToNat (b : Nat) (l : List Char) : Nat :=
  l.foldl (fun a c => b * a + digitVal b c) 0

/-- A `0x`/`0o`/`0b` literal body: nonempty and all digits in range. -/
def radixNum (b : Nat) (ds : List Char) : Option JsNum :=
  if !ds.isEmpty && ds.all (fun c => digitVal b c < b) then
    some (JsNum.finite (Int.ofNat (radixToNat b ds)) 1)
  else none

/-- Exponent tail of a decimal literal (after `e`/`E`): `[+-]?digits`,
consuming the whole remainder. -/
def parseExpDigits : List Char → Option Int
  | '+' :: r => if !r.isEmpty && r.all Char.isDigit then some (Int.ofNat (digitsToNat r)) else none
  | '-' :: r => if !r.isEmpty && r.all Char.isDigit then some (-(Int.ofNat (digitsToNat r))) else none
  | r => if !r.isEmpty && r.all Char.isDigit then some (Int.ofNat (digitsToNat r)) else none

/-- Fold an optional exponent into a scaled-decimal mantissa. -/
def applyExp (n d : Nat) : Option Int → Option (Int × Nat)
  | some e =>
      if 0 ≤ e then some (Int.ofNat (n * 10 ^ e.toNat), d)
      else some (Int.ofNat n, d * 10 ^ (-e).toNat)
  | none => none

/-- Mantissa (integer digits value, fraction digits) followed by an optional
exponent part; the remainder `r` must be empty or a full exponent part. -/
def withExp (ipVal : Nat) (fp : List Char) (r : List Char) : Option (Int × Nat) :=
  let mantNum : Nat := ipVal * 10 ^ fp.length + digitsToNat fp
  let mantDen : Nat := 10 ^ fp.length
  match r with
  | [] => some (Int.ofNat mantNum, mantDen)
  | 'e' :: r2 => applyExp mantNum mantDen (parseExpDigits r2)
  | 'E' :: r2 => applyExp mantNum mantDen (parseExpDigits r2)
  | _ => none

/-- Unsigned decimal literal: `digits [. digits?] [exp]` or `. digits [exp]`,
consuming the whole input. -/
def parseDecimal (l : List Char) : Option (Int × Nat) :=
  let ip := l.takeWhile Char.isDigit
  let r1 := l.dropWhile Char.isDigit
  match r1 with
  | '.' :: r2 =>
      let fp := r2.takeWhile Char.isDigit
      let r3 := r2.dropWhile Char.isDigit
      if ip.isEmpty && fp.isEmpty then none
      else withExp (digitsToNat ip) fp r3
  | _ => if ip.isEmpty then none else withExp (digitsToNat ip) [] r1

/-- Signed decimal-or-Infinity tail of `Number(s)`. -/
def signedTail (sign : Int) (l : List Char) : Option JsNum :=
  if l = "Infinity".data then some (if 0 ≤ sign then JsNum.inf else JsNum.negInf)
  else
    match parseDecimal l with
    | some (n, d) => some (JsNum.finite (sign * n) d)
    | none => none

/-- JS `Number(s)` on an already-trimmed string: `some` the numeric value
when the conversion does not yield `NaN`, `none` when it yields `NaN`.
Covers the `StringNumericLiteral` grammar: empty string (value 0), signed
`Infinity`, signed decimal literals with fraction and exponent, and the
unsigned `0x`/`0o`/`0b` radix literals. -/
def jsNumber? (s : String) : Option JsNum :=
  match s.data with
  | [] => some (JsNum.finite 0 1)
  | '0' :: 'x' :: ds => radixNum 16 ds
  | '0' :: 'X' :: ds => radixNum 16 ds
  | '0' :: 'o' :: ds => radixNum 8 ds
  | '0' :: 'O' :: ds => radixNum 8 ds
  | '0' :: 'b' :: ds => radixNum 2 ds
  | '0' :: 'B' :: ds => radixNum 2 ds
  | '+' :: r => signedTail 1 r
  | '-' :: r => signedTail (-1) r
  | l => signedTail 1 l

/-- The `coerce` closure of `parseXml` (src/utils.ts lines 34-42): with
coercion enabled, trim, map the literals `true`/`false`/`null`, convert a
non-empty string accepted by `Number` to its numeric value, otherwise keep
the trimmed string; with coercion disabled, return the input unchanged. -/
def coerce (coercePrimitives : Bool) (val : String) : JsonVal :=
  if !coercePrimitives then JsonVal.str val
  else
    let s := jsTrim val
    if s = "true" then JsonVal.bool true
    else if s = "false" then JsonVal.bool false
    else if s = "null" then JsonVal.null
    else if s ≠ "" then
      match jsNumber? s with
      | some n => JsonVal.num n
      | none => JsonVal.str s
    else JsonVal.str s

/-- Replace the value at the first occurrence of `key` (JS property
assignment on an existing key keeps its position). -/
def replaceKey : Obj → String → JsonVal → Obj
  | [], _, _ => []
  | (k, v) :: rest, key, value =>
      if k = key then (k, value) :: rest else (k, v) :: replaceKey rest key value

/-- The repeated-sibling merge used by both parser modes (src/utils.ts lines
88-99 and 140-151): first occurrence stored bare; on a duplicate, with
arrayization push onto an existing array or promote to a two-element array,
without arrayization overwrite (last one wins). -/
def setProp (arrayize : Bool) (o : Obj) (key : String) (value : JsonVal) : Obj :=
  match List.lookup key o with
  | none => o ++ [(key, value)]
  | some existing =>
      if arrayize then
        match existing with
        | JsonVal.arr xs => replaceKey o key (JsonVal.arr (xs ++ [value]))
        | _ => replaceKey o key (JsonVal.arr [existing, value])
      else replaceKey o key value

/-- A DOM node as seen by the walker: text (nodeType 3), CDATA (nodeType 4),
comment (standing for any non-text non-element node), or an element with a
tag name, attributes (name/value pairs in document order) and child nodes. -/
inductive XmlNode where
  | text (s : String)
  | cdata (s : String)
  | comment (s : String)
  | elem (tagName : String) (attributes : List (String × String)) (childNodes : List XmlNode)

/-- nodeType 3 or 4, the test of the walker's `textOnly` check. -/
def isTextOrCdata : XmlNode → Bool
  | .text _ => true
  | .cdata _ => true
  | _ => false

/-- `tagName` of a node: `some` for elements (the members of `children`),
`none` for every other node kind. -/
def tagOf : XmlNode → Option String
  | .elem t _ _ => some t
  | _ => none

/-- DOM `textContent` of one node: concatenated character data of all
descendant text/CDATA nodes, comments excluded. -/
def textContentN : XmlNode → String
  | .text s => s
  | .cdata s => s
  | .comment _ => ""
  | .elem _ _ ks => goT ks
where goT : List XmlNode → String
  | [] => ""
  | n :: rest => textContentN n ++ goT rest

/-- DOM `textContent` of a child-node list. -/
def textContentL (l : List XmlNode) : String := textContentN.goT l

/-- Options object of `parseXml` with its default values. -/
structure XmlOptions where
  arrayize : Bool := true
  includeAttributes : Bool := false
  coercePrimitives : Bool := true

/-- The `@attrs` entry of a branch node (src/utils.ts lines 70-80): present
only when attribute capture is on and at least one attribute has a
non-empty name; each attribute value is coerced. -/
def attrsBase (opts : XmlOptions) (attributes : List (String × String)) : Obj :=
  if opts.includeAttributes && !attributes.isEmpty then
    let attrs := (attributes.filter (fun a => !(a.1 = ""))).map
      (fun a => (a.1, coerce opts.coercePrimitives a.2))
    if !attrs.isEmpty then [("@attrs", JsonVal.obj attrs)] else []
  else []

/-- The recursive `walk` of `parseXml`'s full DOM mode (src/utils.ts lines
56-103): an element whose children are exclusively text/CDATA (and nonempty)
is a leaf whose text content is coerced; any other element is a branch
object built from the optional `@attrs` entry followed by its element
children merged via `setProp`.  A non-element node has no child nodes, no
attributes and no element children, so the walker returns an empty object
for it.  The helper `walkChildren` is the child loop (src/utils.ts lines
82-100): walk each element child in document order and merge tagName/value
via `setProp`; non-element children are ignored. -/
def walk (opts : XmlOptions) : XmlNode → JsonVal
  | .text _ => JsonVal.obj []
  | .cdata _ => JsonVal.obj []
  | .comment _ => JsonVal.obj []
  | .elem _ attributes childNodes =>
      if !childNodes.isEmpty && childNodes.all isTextOrCdata then
        coerce opts.coercePrimitives (textContentL childNodes)
      else
        JsonVal.obj (walkChildren childNodes (attrsBase opts attributes))
where walkChildren : List XmlNode → Obj → Obj
  | [], acc => acc
  | n :: rest, acc =>
      walkChildren rest
        (match tagOf n with
         | some t => setProp opts.arrayize acc t (walk opts n)
         | none => acc)

/-- The regex character class `[A-Za-z0-9:_-]` of tag names. -/
def isTagChar (c : Char) : Bool :=
  c.isAlpha || c.isDigit || c = ':' || c = '_' || c = '-'

/-- `startsWithL pat l`: `pat` is a prefix of `l`. -/
def startsWithL : List Char → List Char → Bool
  | [], _ => true
  | _ :: _, [] => false
  | p :: ps, c :: cs => p = c && startsWithL ps cs

/-- The closing tag `</tag>` searched for by the backreference `<\/\1>`. -/
def closerOf (tag : List Char) : List Char :=
  '<' :: '/' :: (tag ++ ['>'])

/-- Split at the FIRST occurrence of `</tag>` (the lazy body `[\s\S]*?` of
the sibling-scan regex): `some (body, rest)` with `body` the text before
the closer and `rest` the text after it. -/
def firstCloseSplit (tag : List Char) : List Char → Option (List Char × List Char)
  | [] => none
  | c :: cs =>
      if startsWithL (closerOf tag) (c :: cs) then some ([], (c :: cs).drop (closerOf tag).length)
      else
        match firstCloseSplit tag cs with
        | some (b, r) => some (c :: b, r)
        | none => none

/-- Match the opening-tag part `<([A-Za-z0-9:_-]+)(\s[^>]*)?>` of the
sibling-scan regex at the start of the input: the tag name is the maximal
nonempty run of tag characters after `<`, followed either directly by `>`
or by one whitespace character, a run of non-`>` characters and `>`.
(No other split is reachable by regex backtracking for this pattern.) -/
def openAt : List Char → Option (List Char × List Char)
  | [] => none
  | c :: cs =>
      if c = '<' then
        let name := cs.takeWhile isTagChar
        if name.isEmpty then none
        else
          match cs.dropWhile isTagChar with
          | [] => none
          | c1 :: r =>
              if c1 = '>' then some (name, r)
              else if isJsWs c1 then
                match r.dropWhile (fun x => !(x = '>')) with
                | [] => none
                | c2 :: r2 => if c2 = '>' then some (name, r2) else none
              else none
      else none

/-- Leftmost match of the sibling-scan regex
`<([A-Za-z0-9:_-]+)(\s[^>]*)?>([\s\S]*?)<\/\1>`: try each position left to
right; at a position where the opening tag matches, the lazy body runs to
the first occurrence of the matching closer; if there is none the position
fails and the scan advances one character.  Returns (tag, body, rest after
the match). -/
def findTagMatch : List Char → Option (List Char × List Char × List Char)
  | [] => none
  | c :: cs =>
      match openAt (c :: cs) with
      | some (tag, afterOpen) =>
          match firstCloseSplit tag afterOpen with
          | some (body, rest) => some (tag, body, rest)
          | none => findTagMatch cs
      | none => findTagMatch cs

/-- Body up to the LAST occurrence of `</tag>` (the greedy body `[\s\S]*`
of the root-extraction regex). -/
def lastCloseSplit (tag : List Char) : List Char → Option (List Char)
  | [] => none
  | c :: cs =>
      match lastCloseSplit tag cs with
      | some b => some (c :: b)
      | none => if startsWithL (closerOf tag) (c :: cs) then some [] else none

/-- Backtracking of the greedy tag-name group `([A-Za-z0-9:_-]+)` of the
root-extraction regex: try the name prefixes of length `k, k-1, ..., 1`;
for each, succeed with the greedy body if its closer occurs in `rest`. -/
def tryNames (N : List Char) : Nat → List Char → Option (List Char × List Char)
  | 0, _ => none
  | k + 1, rest =>
      let tag := N.take (k + 1)
      match lastCloseSplit tag rest with
      | some body => some (tag, body)
      | none => tryNames N k rest

/-- Attempt of the root-extraction regex `<([A-Za-z0-9:_-]+)[^>]*>` at one
position (`c` is the current character, `cs` the remainder): after `<` and
a nonempty maximal run of tag characters, `[^>]*` runs to the first `>`;
then the greedy body and backreferenced closer via `tryNames`. -/
def rootTryAt (c : Char) (cs : List Char) : Option (List Char × List Char) :=
  if c = '<' then
    let N := cs.takeWhile isTagChar
    if N.isEmpty then none
    else
      match (cs.dropWhile isTagChar).dropWhile (fun x => !(x = '>')) with
      | '>' :: rest => tryNames N N.length rest
      | _ => none
  else none

/-- Leftmost match of the root-extraction regex
`<([A-Za-z0-9:_-]+)[^>]*>([\s\S]*)<\/\1>` used by
`parseWithRegexFallback`: returns (tag, body). -/
def rootFind : List Char → Option (List Char × List Char)
  | [] => none
  | c :: cs =>
      match rootTryAt c cs with
      | some r => some r
      | none => rootFind cs

/-- The match-by-match loop of `parseFlatByRegex` (src/utils.ts lines
130-152), embedded with a fuel parameter for structural recursion.  Each
iteration takes the next sibling-scan match on the remaining text; a body
containing another complete tag pair recurses (a null recursive result is
stored as null), otherwise the trimmed body is a leaf (coerced when
enabled); the value is merged via `setProp` and scanning resumes after the
match.  Every recursive call strictly shrinks the text, so any fuel
exceeding the text length is enough (see `pfbrLoop_fuel_irrelevant`). -/
def pfbrLoop (cp az : Bool) : Nat → List Char → Obj → Obj
  | 0, _, out => out
  | f + 1, l, out =>
      match findTagMatch l with
      | none => out
      | some (tag, body, rest) =>
          let value :=
            if (findTagMatch body).isSome then
              match pfbrLoop cp az f body [] with
              | [] => JsonVal.null
              | m => JsonVal.obj m
            else coerce cp (String.mk (trimL body))
          pfbrLoop cp az f rest (setProp az out (String.mk tag) value)

/-- `parseFlatByRegex` (src/utils.ts lines 121-155): scan the text for
sibling tag pairs and build an object; `none` (JS null) when the scan finds
zero tags. -/
def parseFlatByRegex (cp az : Bool) (l : List Char) : Option Obj :=
  match pfbrLoop cp az (l.length + 1) l [] with
  | [] => none
  | m => some m

/-- `parseWithRegexFallback` (src/utils.ts lines 110-119): extract the
outermost tag pair with the root-extraction regex (null when there is
none), then run the flat sibling scan on the captured inner text. -/
def parseWithRegexFallback (cp az : Bool) (outerXml : String) : JsonVal :=
  match rootFind outerXml.data with
  | none => JsonVal.null
  | some (_, body) =>
      match parseFlatByRegex cp az body with
      | some m => JsonVal.obj m
      | none => JsonVal.null

/-- The first argument of `parseXml`: a JS string, or any non-string value
(null, a number, ...), which the `typeof xml !== 'string'` guard rejects. -/
inductive XmlInput where
  | nonString
  | str (s : String)

/-- The environment `parseXml` runs in: no `DOMParser` constructor
(Node.js), a constructor whose use throws, a parse that reports a
`parsererror` document, or a successful parse with its (possibly null)
document element. -/
inductive DomEnv where
  | noDom
  | throws
  | parseError
  | ok (documentElement : Option XmlNode)

/-- `parseXml` (src/utils.ts lines 23-108): null for non-string or blank
input; otherwise full DOM mode walks the document element (null when it is
absent), while a missing DOMParser, a thrown parser exception or a reported
parsererror all route to the regex fallback. -/
def parseXml (env : DomEnv) (xml : XmlInput) (options : XmlOptions) : JsonVal :=
  match xml with
  | .nonString => JsonVal.null
  | .str s =>
      if jsTrim s = "" then JsonVal.null
      else
        match env with
        | .noDom => parseWithRegexFallback options.coercePrimitives options.arrayize s
        | .throws => parseWithRegexFallback options.coercePrimitives options.arrayize s
        | .parseError => parseWithRegexFallback options.coercePrimitives options.arrayize s
        | .ok root =>
            match root with
            | none => JsonVal.null
            | some el => walk options el

/-- A zod v3 runtime value as introspected by src/utils_zod.ts.  `raw` is
any value not recognizable as a schema node (`isZodSchema` false: not an
object, no `_def`, or a non-string `_def.typeName`); `mk` is a schema
instance carrying the `_def` fields the source reads — `typeName`, the
wrapper links `innerType` / `schema` / `type`, `valueType` (records),
`options` (`some` the option list when `_def.options` is an array or
`Map`), `items` (tuples, `[]` when absent), `values` (`some` when
`_def.values` is an array of strings), `litValue` (the `JSON.stringify`
rendering of `_def.value`), `shape` (object fields in declaration order)
and `descr` (`_def.description`) — plus `isOpt`, the answer of the
schema's `isOptional()` method. -/
inductive ZS where
  | raw
  | mk (typeName : String) (isOpt : Bool)
       (innerType schemaF typeF valueType : Option ZS)
       (options : Option (List ZS)) (items : List ZS)
       (values : Option (List String)) (litValue : String)
       (shape : List (String × ZS)) (descr : Option String)

/-- `isZodSchema` (src/utils_zod.ts lines 4-6). -/
def isSchemaB : ZS → Bool
  | .raw => false
  | .mk .. => true

/-- `typeof x.isOptional === "function" && x.isOptional()`. -/
def isOptB : ZS → Bool
  | .raw => false
  | .mk _ io _ _ _ _ _ _ _ _ _ _ => io

/-- `_def.description` of a node (`getDef` yields `{}` for non-schemas). -/
def descOf : ZS → Option String
  | .raw => none
  | .mk _ _ _ _ _ _ _ _ _ _ _ ds => ds

/-- A wrapper-link test `"k" in d && isZodSchema(d.k)`: the field is
present and holds a schema node. -/
def asLink : Option ZS → Option ZS
  | some u => if isSchemaB u then some u else none
  | none => none

/-- One iteration of `unwrap`'s peeling loop (src/utils_zod.ts lines
14-28): `done r` means the loop returns `r` (`none` standing for JS
`undefined`), `go u` means the loop continues on `u`.  An optional node
moves to its `innerType` unconditionally (to `undefined` when absent);
otherwise the first wrapper link among `innerType`, `schema`, `type` that
holds a schema is followed; a node with no applicable rule is terminal. -/
inductive UnwrapStep where
  | done (r : Option ZS)
  | go (next : ZS)

/-- The loop body of `unwrap`. -/
def unwrapStep : ZS → UnwrapStep
  | .raw => .done none
  | .mk tn io inner sch ty vt os its vs lv shp ds =>
      if io then
        match inner with
        | some u => .go u
        | none => .done none
      else
        match asLink inner with
        | some u => .go u
        | none =>
            match asLink sch with
            | some u => .go u
            | none =>
                match asLink ty with
                | some u => .go u
                | none => .done (some (ZS.mk tn io inner sch ty vt os its vs lv shp ds))

/-- Structural size of a schema value, used as a fuel bound for the
introspection recursions. -/
def zsSize : ZS → Nat
  | .raw => 1
  | .mk _ _ inner sch ty vt os its _ _ shape _ =>
      1 + goO inner + goO sch + goO ty + goO vt + goLO os + goL its + goS shape
where
  goO : Option ZS → Nat
    | some u => 1 + zsSize u
    | none => 0
  goL : List ZS → Nat
    | [] => 0
    | u :: rest => 1 + zsSize u + goL rest
  goLO : Option (List ZS) → Nat
    | some l => 1 + goL l
    | none => 0
  goS : List (String × ZS) → Nat
    | [] => 0
    | (_, v) :: rest => 1 + zsSize v + goS rest

/-- Iterate `unwrapStep` with fuel.  Each `go` step moves to a strict
subterm (`unwrapStep_go_size`), so any fuel of at least `zsSize t` is
enough and the `0` case is unreachable from `unwrap`
(`unwrapF_fuel_irrelevant`). -/
def unwrapF : Nat → ZS → Option ZS
  | 0, _ => none
  | f + 1, t =>
      match unwrapStep t with
      | .done r => r
      | .go u => unwrapF f u

/-- `unwrap` (src/utils_zod.ts lines 9-29): repeatedly peel one wrapper
layer until a terminal node (returned as `some`) or an unrecognizable
value (`none`, standing for JS `undefined`). -/
def unwrap (t : ZS) : Option ZS := unwrapF (zsSize t) t

/-- The recursion of `typeToString` (src/utils_zod.ts lines 35-86) with a
fuel parameter.  Nested element/value/option references are rendered with
fuel `f`; every such reference has `zsSize` strictly below the current
node's, and `unwrap` never increases `zsSize` (`unwrap_size_le`), so any
fuel of at least `zsSize` of the argument is enough and the `0` case is
unreachable from `typeToString`. -/
def tts : Nat → ZS → String
  | 0, _ => "unknown"
  | f + 1, t0 =>
      match unwrap t0 with
      | none => "unknown"
      | some ZS.raw => "unknown"
      | some (ZS.mk tn _ _ _ ty vt os its vs lv _ _) =>
          if tn = "ZodString" then "string"
          else if tn = "ZodNumber" then "number"
          else if tn = "ZodBoolean" then "boolean"
          else if tn = "ZodDate" then "date"
          else if tn = "ZodBigInt" then "bigint"
          else if tn = "ZodLiteral" then lv
          else if tn = "ZodEnum" then
            match vs with
            | some l => "enum<" ++ String.intercalate " | " l ++ ">"
            | none => "enum<>"
          else if tn = "ZodNativeEnum" then "enum"
          else if tn = "ZodNull" then "null"
          else if tn = "ZodUndefined" then "undefined"
          else if tn = "ZodUnknown" then "unknown"
          else if tn = "ZodAny" then "any"
          else if tn = "ZodArray" then
            match ty with
            | some e => "array<" ++ (if isSchemaB e then tts f e else "unknown") ++ ">"
            | none => "array<unknown>"
          else if tn = "ZodRecord" then
            match vt with
            | some v => "record<string, " ++ (if isSchemaB v then tts f v else "unknown") ++ ">"
            | none => "record<string, unknown>"
          else if tn = "ZodUnion" then
            match os with
            | some l => String.intercalate " | " (l.map fun o => if isSchemaB o then tts f o else "unknown")
            | none => ""
          else if tn = "ZodDiscriminatedUnion" then
            match os with
            | some l => String.intercalate " | " (l.map fun o => if isSchemaB o then tts f o else "unknown")
            | none => ""
          else if tn = "ZodObject" then "object"
          else if tn = "ZodTuple" then
            "tuple<" ++ String.intercalate ", " (its.map fun i => if isSchemaB i then tts f i else "unknown") ++ ">"
          else "unknown"

/-- `typeToString` (src/utils_zod.ts lines 35-86): unwrap, then render the
terminal node's kind as a compact type signature; unrecognizable nodes and
unrecognized kinds render as "unknown".  `_def.options` of a plain union is
read when it is an array, of a discriminated union via `Map` values; both
render their options joined by " | " (absence renders as the empty
join). -/
def typeToString (t0 : ZS) : String := tts (zsSize t0) t0

/-- `getDescription`'s fallback lookup on the unwrapped node (src/utils_zod.ts
lines 98-105; the two `meta()` probes of lines 90-93 and 99-102 do not apply
to zod v3, whose schemas have no `meta` method). -/
def unwrappedDescr (s : ZS) : Option String :=
  match unwrap s with
  | some u =>
      match descOf u with
      | some d => if d = "" then none else some d
      | none => none
  | none => none

/-- `getDescription` (src/utils_zod.ts lines 89-106): the node's own truthy
`_def.description`, else the unwrapped node's, else nothing. -/
def getDescription (s : ZS) : Option String :=
  match descOf s with
  | some d => if d = "" then unwrappedDescr s else some d
  | none => unwrappedDescr s

/-- One field descriptor emitted by `collectFields`. -/
structure FieldInfo where
  path : String
  type : String
  optional : Bool
  description : Option String

/-- The recursion of `collectFields` (src/utils_zod.ts lines 129-171) with
a fuel parameter: a non-object (or unrecognizable) schema yields no
descriptors; an object schema yields, per field in declaration order, one
descriptor built from the original (not yet unwrapped) field value,
followed by the descriptors of the unwrapped field when it is itself
object-kind (same path), an array whose unwrapped element is object-kind
(path suffix `[]`), or a record whose unwrapped value type is object-kind
(path suffix `{value}`).  Every recursive call is on a node of strictly
smaller `zsSize` (shape members are strict subterms and `unwrap` never
increases `zsSize`), so any fuel of at least `zsSize` of the argument is
enough and the `0` case is unreachable from `collectFields`. -/
def cfF : Nat → ZS → String → List FieldInfo
  | 0, _, _ => []
  | f + 1, schema, pre =>
      match unwrap schema with
      | some (ZS.mk tn _ _ _ _ _ _ _ _ _ shape _) =>
          if tn = "ZodObject" then
            shape.flatMap fun kv =>
              let key := kv.1
              let original := kv.2
              let path := if pre = "" then key else pre ++ "." ++ key
              let head : FieldInfo :=
                { path := path
                  type := typeToString original
                  optional := isOptB original
                  description := getDescription original }
              let extra : List FieldInfo :=
                match unwrap original with
                | some (ZS.mk tn2 io2 in2 sch2 ty2 vt2 os2 its2 vs2 lv2 shp2 ds2) =>
                    if tn2 = "ZodObject" then
                      cfF f (ZS.mk tn2 io2 in2 sch2 ty2 vt2 os2 its2 vs2 lv2 shp2 ds2) path
                    else if tn2 = "ZodArray" then
                      match ty2 with
                      | some tf =>
                          match unwrap tf with
                          | some (ZS.mk tn3 io3 in3 sch3 ty3 vt3 os3 its3 vs3 lv3 shp3 ds3) =>
                              if tn3 = "ZodObject" then
                                cfF f (ZS.mk tn3 io3 in3 sch3 ty3 vt3 os3 its3 vs3 lv3 shp3 ds3)
                                  (path ++ "[]")
                              else []
                          | _ => []
                      | none => []
                    else if tn2 = "ZodRecord" then
                      match vt2 with
                      | some vf =>
                          match unwrap vf with
                          | some (ZS.mk tn3 io3 in3 sch3 ty3 vt3 os3 its3 vs3 lv3 shp3 ds3) =>
                              if tn3 = "ZodObject" then
                                cfF f (ZS.mk tn3 io3 in3 sch3 ty3 vt3 os3 its3 vs3 lv3 shp3 ds3)
                                  (path ++ "\x7bvalue\x7d")
                              else []
                          | _ => []
                      | none => []
                    else []
                | _ => []
              head :: extra
          else []
      | _ => []

/-- `collectFields` (src/utils_zod.ts lines 129-171). -/
def collectFields (schema : ZS) (pre : String) : List FieldInfo :=
  cfF (zsSize schema) schema pre

/-- One field line of `schemaToPrompt` (src/utils_zod.ts line 181):
`- <path> (<type>, required|optional)` with a ` — <description>` suffix
when a truthy description is present. -/
def renderFieldLine (f : FieldInfo) : String :=
  "- " ++ f.path ++ " (" ++ f.type ++ ", " ++ (if f.optional then "optional" else "required") ++ ")"
    ++ (match f.description with
        | some d => if d = "" then "" else " — " ++ d
        | none => "")

/-- `schemaToPrompt` (src/utils_zod.ts lines 174-184): a header line
(`Schema: <description>` for a truthy root description, bare `Schema:`
otherwise) followed by one line per collected field descriptor, joined
with newlines. -/
def schemaToPrompt (schema : ZS) : String :=
  let desc := getDescription schema
  let header :=
    match desc with
    | some d => if d = "" then "Schema:" else "Schema: " ++ d
    | none => "Schema:"
  let fields := collectFields schema ""
  String.intercalate "\n" (header :: fields.map renderFieldLine)

lemma asLink_eq_some {o : Option ZS} {u : ZS} (h : asLink o = some u) :
    o = some u ∧ isSchemaB u = true := by
  cases o with
  | none => simp [asLink] at h
  | some v =>
      simp only [asLink] at h
      by_cases hv : isSchemaB v
      · simp only [hv, if_true, Option.some.injEq] at h
        subst h; exact ⟨rfl, hv⟩
      · simp [hv] at h

lemma zsSize_pos (t : ZS) : 1 ≤ zsSize t := by
  cases t
  · simp [zsSize]
  · simp only [zsSize]
    omega

lemma zsSize_inner {u : ZS} {inner : Option ZS}
    (tn : String) (io : Bool) (sch ty vt : Option ZS) (os : Option (List ZS)) (its : List ZS)
    (vs : Option (List String)) (lv : String) (shp : List (String × ZS)) (ds : Option String)
    (h : inner = some u) :
    zsSize u < zsSize (ZS.mk tn io inner sch ty vt os its vs lv shp ds) := by
  subst h; simp [zsSize, zsSize.goO]; omega

lemma zsSize_sch {u : ZS} {sch : Option ZS}
    (tn : String) (io : Bool) (inner ty vt : Option ZS) (os : Option (List ZS)) (its : List ZS)
    (vs : Option (List String)) (lv : String) (shp : List (String × ZS)) (ds : Option String)
    (h : sch = some u) :
    zsSize u < zsSize (ZS.mk tn io inner sch ty vt os its vs lv shp ds) := by
  subst h; simp [zsSize, zsSize.goO]; omega

lemma zsSize_ty {u : ZS} {ty : Option ZS}
    (tn : String) (io : Bool) (inner sch vt : Option ZS) (os : Option (List ZS)) (its : List ZS)
    (vs : Option (List String)) (lv : String) (shp : List (String × ZS)) (ds : Option String)
    (h : ty = some u) :
    zsSize u < zsSize (ZS.mk tn io inner sch ty vt os its vs lv shp ds) := by
  subst h; simp [zsSize, zsSize.goO]; omega

lemma unwrapStep_go_size {t u : ZS} (h : unwrapStep t = .go u) : zsSize u < zsSize t := by
  cases t with
  | raw => simp [unwrapStep] at h
  | mk tn io inner sch ty vt os its vs lv shp ds =>
      simp only [unwrapStep] at h
      by_cases hio : io
      · simp only [hio, if_true] at h
        cases inner with
        | none => simp at h
        | some v =>
            simp only [UnwrapStep.go.injEq] at h
            subst h
            exact zsSize_inner tn io sch ty vt os its vs lv shp ds rfl
      · simp only [hio, if_false, Bool.false_eq_true] at h
        rcases h1 : asLink inner with _ | v1
        all_goals rw [h1] at h
        · rcases h2 : asLink sch with _ | v2
          all_goals rw [h2] at h
          · rcases h3 : asLink ty with _ | v3
            all_goals rw [h3] at h
            · simp at h
            · simp only [UnwrapStep.go.injEq] at h
              subst h
              exact zsSize_ty tn io inner sch vt os its vs lv shp ds (asLink_eq_some h3).1
          · simp only [UnwrapStep.go.injEq] at h
            subst h
            exact zsSize_sch tn io inner ty vt os its vs lv shp ds (asLink_eq_some h2).1
        · simp only [UnwrapStep.go.injEq] at h
          subst h
          exact zsSize_inner tn io sch ty vt os its vs lv shp ds (asLink_eq_some h1).1

lemma unwrapStep_done_some {t u : ZS} (h : unwrapStep t = .done (some u)) :
    u = t ∧ isSchemaB t = true := by
  cases t with
  | raw => simp [unwrapStep] at h
  | mk tn io inner sch ty vt os its vs lv shp ds =>
      cases io with
      | true =>
          cases inner with
          | none => simp [unwrapStep] at h
          | some v => simp [unwrapStep] at h
      | false =>
          simp only [unwrapStep, Bool.false_eq_true, if_false] at h
          rcases h1 : asLink inner with _ | v1
          all_goals rw [h1] at h
          · rcases h2 : asLink sch with _ | v2
            all_goals rw [h2] at h
            · rcases h3 : asLink ty with _ | v3
              all_goals rw [h3] at h
              · simp only [UnwrapStep.done.injEq, Option.some.injEq] at h
                exact ⟨h.symm, rfl⟩
              · simp at h
            · simp at h
          · simp at h

lemma unwrapF_fuel_irrelevant :
    ∀ (k : Nat) (t : ZS) (f1 f2 : Nat), zsSize t ≤ k → zsSize t ≤ f1 → zsSize t ≤ f2 →
      unwrapF f1 t = unwrapF f2 t := by
  intro k
  induction k with
  | zero => intro t f1 f2 hk _ _; have := zsSize_pos t; omega
  | succ k ih =>
      intro t f1 f2 hk h1 h2
      have hp := zsSize_pos t
      obtain ⟨g1, rfl⟩ : ∃ g, f1 = g + 1 := ⟨f1 - 1, by omega⟩
      obtain ⟨g2, rfl⟩ : ∃ g, f2 = g + 1 := ⟨f2 - 1, by omega⟩
      simp only [unwrapF]
      rcases hs : unwrapStep t with r | u
      · rfl
      · have hu := unwrapStep_go_size hs
        exact ih u g1 g2 (by omega) (by omega) (by omega)

lemma unwrapF_eq_unwrap {t : ZS} {f : Nat} (hf : zsSize t ≤ f) : unwrapF f t = unwrap t :=
  unwrapF_fuel_irrelevant (zsSize t) t f (zsSize t) le_rfl hf le_rfl

lemma unwrap_go {t u : ZS} (hs : unwrapStep t = .go u) : unwrap t = unwrap u := by
  have hp := zsSize_pos t
  obtain ⟨g, hg⟩ : ∃ g, zsSize t = g + 1 := ⟨zsSize t - 1, by omega⟩
  have hu := unwrapStep_go_size hs
  show unwrapF (zsSize t) t = unwrap u
  rw [hg]
  simp only [unwrapF]
  rw [hs]
  exact unwrapF_eq_unwrap (by omega)

lemma unwrap_done {t : ZS} {r : Option ZS} (hs : unwrapStep t = .done r) : unwrap t = r := by
  have hp := zsSize_pos t
  obtain ⟨g, hg⟩ : ∃ g, zsSize t = g + 1 := ⟨zsSize t - 1, by omega⟩
  show unwrapF (zsSize t) t = r
  rw [hg]
  simp only [unwrapF]
  rw [hs]

lemma unwrap_size_le : ∀ (k : Nat) (t u : ZS), zsSize t ≤ k → unwrap t = some u →
    zsSize u ≤ zsSize t := by
  intro k
  induction k with
  | zero => intro t u hk _; have := zsSize_pos t; omega
  | succ k ih =>
      intro t u hk h
      rcases hs : unwrapStep t with r | v
      · rw [unwrap_done hs] at h
        subst h
        obtain ⟨rfl, _⟩ := unwrapStep_done_some hs
        exact le_rfl
      · have hv := unwrapStep_go_size hs
        rw [unwrap_go hs] at h
        exact le_trans (ih v u (by omega) h) (le_of_lt hv)

lemma unwrap_terminal : ∀ (k : Nat) (t u : ZS), zsSize t ≤ k → unwrap t = some u →
    isSchemaB u = true ∧ unwrap u = some u := by
  intro k
  induction k with
  | zero => intro t u hk _; have := zsSize_pos t; omega
  | succ k ih =>
      intro t u hk h
      rcases hs : unwrapStep t with r | v
      · rw [unwrap_done hs] at h
        subst h
        obtain ⟨rfl, hb⟩ := unwrapStep_done_some hs
        exact ⟨hb, unwrap_done hs⟩
      · have hv := unwrapStep_go_size hs
        rw [unwrap_go hs] at h
        exact ih v u (by omega) h

lemma dropWhileL_length_le (p : Char → Bool) : ∀ l : List Char, (l.dropWhile p).length ≤ l.length := by
  intro l
  induction l with
  | nil => simp
  | cons c cs ih =>
      by_cases h : p c
      · simp only [List.dropWhile_cons, h, if_true, List.length_cons]
        omega
      · simp [List.dropWhile_cons, h]

lemma startsWithL_length : ∀ (p l : List Char), startsWithL p l = true → p.length ≤ l.length := by
  intro p
  induction p with
  | nil => intro l _; simp
  | cons a ps ih =>
      intro l h
      cases l with
      | nil => simp [startsWithL] at h
      | cons c cs =>
          simp only [startsWithL, Bool.and_eq_true] at h
          have := ih cs h.2
          simp only [List.length_cons]
          omega

lemma openAt_length : ∀ (l tag after : List Char), openAt l = some (tag, after) →
    after.length < l.length := by
  intro l tag after h
  cases l with
  | nil => simp [openAt] at h
  | cons c cs =>
      simp only [openAt] at h
      by_cases hc : c = '<'
      · rw [if_pos hc] at h
        split at h
        · exact absurd h (by simp)
        · rcases hd : cs.dropWhile isTagChar with _ | ⟨c1, r⟩
          all_goals rw [hd] at h
          all_goals dsimp only at h
          · exact absurd h (by simp)
          · have h1 : (c1 :: r).length ≤ cs.length := by
              rw [← hd]; exact dropWhileL_length_le _ cs
            by_cases h1c : c1 = '>'
            · rw [if_pos h1c] at h
              simp only [Option.some.injEq, Prod.mk.injEq] at h
              obtain ⟨_, rfl⟩ := h
              simp only [List.length_cons] at h1 ⊢
              omega
            · rw [if_neg h1c] at h
              by_cases hws : isJsWs c1 = true
              · rw [if_pos hws] at h
                rcases hd2 : r.dropWhile (fun x => !(x = '>')) with _ | ⟨c2, r2⟩
                all_goals rw [hd2] at h
                all_goals dsimp only at h
                · exact absurd h (by simp)
                · have h2 : (c2 :: r2).length ≤ r.length := by
                    rw [← hd2]; exact dropWhileL_length_le _ r
                  by_cases h2c : c2 = '>'
                  · rw [if_pos h2c] at h
                    simp only [Option.some.injEq, Prod.mk.injEq] at h
                    obtain ⟨_, rfl⟩ := h
                    simp only [List.length_cons] at h1 h2 ⊢
                    omega
                  · rw [if_neg h2c] at h
                    exact absurd h (by simp)
              · rw [if_neg hws] at h
                exact absurd h (by simp)
      · rw [if_neg hc] at h
        exact absurd h (by simp)

lemma firstCloseSplit_length : ∀ (tag l b r : List Char), firstCloseSplit tag l = some (b, r) →
    b.length + r.length < l.length := by
  intro tag l
  induction l with
  | nil => intro b r h; simp [firstCloseSplit] at h
  | cons c cs ih =>
      intro b r h
      simp only [firstCloseSplit] at h
      by_cases hsw : startsWithL (closerOf tag) (c :: cs) = true
      · rw [if_pos hsw] at h
        have hn := startsWithL_length _ _ hsw
        simp only [Option.some.injEq, Prod.mk.injEq] at h
        obtain ⟨rfl, rfl⟩ := h
        have hcl : 3 ≤ (closerOf tag).length := by simp [closerOf]
        simp only [List.length_drop, List.length_nil, List.length_cons] at hn ⊢
        omega
      · rw [if_neg hsw] at h
        rcases hrec : firstCloseSplit tag cs with _ | ⟨b', r'⟩
        all_goals rw [hrec] at h
        · exact absurd h (by simp)
        · simp only [Option.some.injEq, Prod.mk.injEq] at h
          obtain ⟨rfl, rfl⟩ := h
          have := ih b' r' hrec
          simp only [List.length_cons]
          omega

lemma findTagMatch_length : ∀ (l tag body rest : List Char),
    findTagMatch l = some (tag, body, rest) → body.length < l.length ∧ rest.length < l.length := by
  intro l
  induction l with
  | nil => intro tag body rest h; simp [findTagMatch] at h
  | cons c cs ih =>
      intro tag body rest h
      simp only [findTagMatch] at h
      rcases ho : openAt (c :: cs) with _ | ⟨tag0, after⟩
      all_goals rw [ho] at h
      all_goals dsimp only at h
      · have := ih tag body rest h
        simp only [List.length_cons]
        omega
      · rcases hf : firstCloseSplit tag0 after with _ | ⟨b0, r0⟩
        all_goals rw [hf] at h
        all_goals dsimp only at h
        · have := ih tag body rest h
          simp only [List.length_cons]
          omega
        · simp only [Option.some.injEq, Prod.mk.injEq] at h
          obtain ⟨rfl, rfl, rfl⟩ := h
          have h1 := openAt_length _ _ _ ho
          have h2 := firstCloseSplit_length _ _ _ _ hf
          omega

lemma pfbrLoop_fuel_irrelevant :
    ∀ (k : Nat) (cp az : Bool) (l : List Char) (out : Obj) (f1 f2 : Nat),
      l.length < f1 → l.length < f2 → l.length ≤ k →
      pfbrLoop cp az f1 l out = pfbrLoop cp az f2 l out := by
  intro k
  induction k with
  | zero =>
      intro cp az l out f1 f2 h1 h2 hk
      have hl : l = [] := List.length_eq_zero.mp (by omega)
      subst hl
      obtain ⟨g1, rfl⟩ : ∃ g, f1 = g + 1 := ⟨f1 - 1, by omega⟩
      obtain ⟨g2, rfl⟩ : ∃ g, f2 = g + 1 := ⟨f2 - 1, by omega⟩
      simp [pfbrLoop, findTagMatch]
  | succ k ih =>
      intro cp az l out f1 f2 h1 h2 hk
      obtain ⟨g1, rfl⟩ : ∃ g, f1 = g + 1 := ⟨f1 - 1, by omega⟩
      obtain ⟨g2, rfl⟩ : ∃ g, f2 = g + 1 := ⟨f2 - 1, by omega⟩
      simp only [pfbrLoop]
      rcases hm : findTagMatch l with _ | ⟨tag, body, rest⟩
      all_goals dsimp only
      have hlen := findTagMatch_length _ _ _ _ hm
      have hinner : pfbrLoop cp az g1 body [] = pfbrLoop cp az g2 body [] :=
        ih cp az body [] g1 g2 (by omega) (by omega) (by omega)
      rw [hinner]
      exact ih cp az rest _ g1 g2 (by omega) (by omega) (by omega)

lemma walkChildren_skip (opts : XmlOptions) : ∀ (ns : List XmlNode) (acc : Obj),
    (∀ n ∈ ns, tagOf n = none) → walk.walkChildren opts ns acc = acc := by
  intro ns
  induction ns with
  | nil => intro acc _; rfl
  | cons n rest ih =>
      intro acc h
      have hn : tagOf n = none := h n (by simp)
      simp only [walk.walkChildren, hn]
      exact ih acc (fun m hm => h m (by simp [hm]))

lemma length_le_flatMap {α β : Type _} (l : List α) (g : α → List β)
    (h : ∀ a ∈ l, 1 ≤ (g a).length) : l.length ≤ (l.flatMap g).length := by
  induction l with
  | nil => simp
  | cons a rest ih =>
      simp only [List.flatMap_cons, List.length_append, List.length_cons]
      have h1 := h a (by simp)
      have h2 := ih (fun b hb => h b (by simp [hb]))
      omega

/-- The environments in which `parseXml` cannot complete a full DOM parse:
no DOMParser constructor, a parser that throws, or a reported parsererror. -/
def domFails (env : DomEnv) : Prop :=
  env = DomEnv.noDom ∨ env = DomEnv.throws ∨ env = DomEnv.parseError

/-- A bare zod v3 schema node of kind `tn` with no wrapper links and no
kind payload. -/
def zNode (tn : String) : ZS :=
  ZS.mk tn false none none none none none [] none "" [] none

/-- A `z.optional(u)` style wrapper: `isOptional()` answers true and
`_def.innerType` is `u`. -/
def zOptional (u : ZS) : ZS :=
  ZS.mk "ZodOptional" true (some u) none none none none [] none "" [] none

/-- A `z.array(e)` schema: zod v3 stores the element under `_def.type`. -/
def zArray (e : ZS) : ZS :=
  ZS.mk "ZodArray" false none none (some e) none none [] none "" [] none

/-- A `z.union(os)` schema: `_def.options` is the option array. -/
def zUnion (os : List ZS) : ZS :=
  ZS.mk "ZodUnion" false none none none none (some os) [] none "" [] none

/-- A two-field object schema used as a concrete witness input: a described
required string field and an optional number field, with a root
description. -/
def personSchema : ZS :=
  ZS.mk "ZodObject" false none none none none none [] none ""
    [("name", ZS.mk "ZodString" false none none none none none [] none "" [] (some "the name")),
     ("age", zOptional (zNode "ZodNumber"))]
    (some "a person")

/-- The kind tags the `typeToString` switch recognizes. -/
def knownTypeKinds : List String :=
  ["ZodString", "ZodNumber", "ZodBoolean", "ZodDate", "ZodBigInt", "ZodLiteral",
   "ZodEnum", "ZodNativeEnum", "ZodNull", "ZodUndefined", "ZodUnknown", "ZodAny",
   "ZodArray", "ZodRecord", "ZodUnion", "ZodDiscriminatedUnion", "ZodObject", "ZodTuple"]

/-- C1 counterexample: `parse("<a><b>1</b><b>2</b></a>")` with default
options does NOT return a mapping keyed by the root tag `a`: the walker
starts at the document element, so the root tag's children become the
top-level keys and `a` itself is never a key. -/
theorem c1_counterexample :
    parseXml DomEnv.noDom (XmlInput.str "<a><b>1</b><b>2</b></a>") {} ≠
      JsonVal.obj [("a", JsonVal.obj [("b", JsonVal.arr
        [JsonVal.num (JsNum.finite 1 1), JsonVal.num (JsNum.finite 2 1)])])] := by
  have hv : parseXml DomEnv.noDom (XmlInput.str "<a><b>1</b><b>2</b></a>") {} =
      JsonVal.obj [("b", JsonVal.arr
        [JsonVal.num (JsNum.finite 1 1), JsonVal.num (JsNum.finite 2 1)])] := rfl
  rw [hv]
  simp

/-- C1 amended: `parse("<a><b>1</b><b>2</b></a>")` with default options
returns `{ b: [1, 2] }` — the repeated sibling tag `b` is promoted to an
ordered two-element sequence of the coerced numbers 1 and 2, but the keys
of the result are the root element's children; the root tag name `a` is
not part of the result.  This holds both in degraded regex mode and in
full DOM mode on the document's element tree. -/
theorem c1_amended :
    parseXml DomEnv.noDom (XmlInput.str "<a><b>1</b><b>2</b></a>") {} =
      JsonVal.obj [("b", JsonVal.arr
        [JsonVal.num (JsNum.finite 1 1), JsonVal.num (JsNum.finite 2 1)])] ∧
    parseXml (DomEnv.ok (some (XmlNode.elem "a" []
        [XmlNode.elem "b" [] [XmlNode.text "1"], XmlNode.elem "b" [] [XmlNode.text "2"]])))
      (XmlInput.str "<a><b>1</b><b>2</b></a>") {} =
      JsonVal.obj [("b", JsonVal.arr
        [JsonVal.num (JsNum.finite 1 1), JsonVal.num (JsNum.finite 2 1)])] :=
  ⟨rfl, rfl⟩

/-- C5 counterexample: `parse("<a><b>1</b><b>2</b></a>", { arrayize: false })`
does NOT return `{ a: { b: 2 } }`: the root tag name is not a key of the
result. -/
theorem c5_counterexample :
    parseXml DomEnv.noDom (XmlInput.str "<a><b>1</b><b>2</b></a>") { arrayize := false } ≠
      JsonVal.obj [("a", JsonVal.obj [("b", JsonVal.num (JsNum.finite 2 1))])] := by
  have hv : parseXml DomEnv.noDom (XmlInput.str "<a><b>1</b><b>2</b></a>") { arrayize := false } =
      JsonVal.obj [("b", JsonVal.num (JsNum.finite 2 1))] := rfl
  rw [hv]
  simp

/-- C5 amended: with `arrayize: false`, a repeated sibling tag is silently
overwritten (last one wins, not merged): `parse("<a><b>1</b><b>2</b></a>",
{ arrayize: false })` returns `{ b: 2 }` (the root tag name is not a key),
in degraded regex mode and in full DOM mode alike. -/
theorem c5_amended :
    parseXml DomEnv.noDom (XmlInput.str "<a><b>1</b><b>2</b></a>") { arrayize := false } =
      JsonVal.obj [("b", JsonVal.num (JsNum.finite 2 1))] ∧
    parseXml (DomEnv.ok (some (XmlNode.elem "a" []
        [XmlNode.elem "b" [] [XmlNode.text "1"], XmlNode.elem "b" [] [XmlNode.text "2"]])))
      (XmlInput.str "<a><b>1</b><b>2</b></a>") { arrayize := false } =
      JsonVal.obj [("b", JsonVal.num (JsNum.finite 2 1))] :=
  ⟨rfl, rfl⟩

/-- C10: well-formed input on which parse succeeds yet returns null: a root
element that is a leaf with literal text "null" coerces to the primitive
null under default options, in full DOM mode (via the walker and `coerce`)
and in degraded regex mode alike — so a null return does not by itself
indicate that no structure was recognized. -/
theorem c10_successful_null :
    coerce true "null" = JsonVal.null ∧
    walk {} (XmlNode.elem "a" [] [XmlNode.text "null"]) = JsonVal.null ∧
    parseXml (DomEnv.ok (some (XmlNode.elem "a" [] [XmlNode.text "null"])))
      (XmlInput.str "<a>null</a>") {} = JsonVal.null ∧
    parseXml DomEnv.noDom (XmlInput.str "<a>null</a>") {} = JsonVal.null :=
  ⟨rfl, rfl, rfl, rfl⟩

/-- C2: `parseXml` never throws to its caller: in every environment in
which the full parse is unavailable or fails (no DOMParser, a parser
exception — caught by the try/catch — or a reported parsererror), the call
returns the degraded regex path's result (null for blank input), for every
input string and every option choice.  Totality of the embedding models
the absence of exceptions. -/
theorem c2_never_throws (env : DomEnv) (opts : XmlOptions) (s : String) (h : domFails env) :
    parseXml env (XmlInput.str s) opts =
      if jsTrim s = "" then JsonVal.null
      else parseWithRegexFallback opts.coercePrimitives opts.arrayize s := by
  rcases h with h | h | h
  all_goals subst h
  all_goals rfl

/-- C2 witness. -/
theorem c2_witness :
    domFails DomEnv.noDom ∧
    parseXml DomEnv.noDom (XmlInput.str "<a>1</a>") {} =
      (if jsTrim "<a>1</a>" = "" then JsonVal.null
       else parseWithRegexFallback true true "<a>1</a>") :=
  ⟨Or.inl rfl, c2_never_throws DomEnv.noDom {} "<a>1</a>" (Or.inl rfl)⟩

/-- C6: parse returns null (not an empty mapping, without throwing) in each
listed failure case: non-string input, blank/whitespace-only input, a
degraded-mode input with no outer tag pair, and a degraded-mode sibling
scan that finds zero tags; in particular `parse("not xml at all")` is null
whenever the full mode degrades (parsererror) and in plain degraded
mode. -/
theorem c6_null_failure_cases :
    (∀ (env : DomEnv) (opts : XmlOptions), parseXml env XmlInput.nonString opts = JsonVal.null) ∧
    (∀ (env : DomEnv) (opts : XmlOptions), parseXml env (XmlInput.str "") opts = JsonVal.null) ∧
    (∀ (env : DomEnv) (opts : XmlOptions), parseXml env (XmlInput.str "   ") opts = JsonVal.null) ∧
    (∀ (cp az : Bool) (s : String), rootFind s.data = none →
      parseWithRegexFallback cp az s = JsonVal.null) ∧
    (∀ (cp az : Bool) (l : List Char), findTagMatch l = none →
      parseFlatByRegex cp az l = none) ∧
    (∀ (env : DomEnv) (opts : XmlOptions), domFails env →
      parseXml env (XmlInput.str "not xml at all") opts = JsonVal.null) := by
  refine ⟨fun env opts => rfl, fun env opts => rfl, fun env opts => rfl, ?_, ?_, ?_⟩
  · intro cp az s h
    simp only [parseWithRegexFallback]
    rw [h]
  · intro cp az l h
    simp only [parseFlatByRegex, pfbrLoop]
    rw [h]
  · intro env opts h
    rcases h with h | h | h
    all_goals subst h
    all_goals rfl

/-- C6 witness. -/
theorem c6_witness :
    parseWithRegexFallback true true "not xml at all" = JsonVal.null ∧
    parseFlatByRegex true true ("no tags here".data) = none ∧
    parseXml DomEnv.parseError (XmlInput.str "not xml at all") {} = JsonVal.null := by
  refine ⟨?_, ?_, ?_⟩
  · exact c6_null_failure_cases.2.2.2.1 true true "not xml at all" (by rfl)
  · exact c6_null_failure_cases.2.2.2.2.1 true true _ (by rfl)
  · exact c6_null_failure_cases.2.2.2.2.2 DomEnv.parseError {} (Or.inr (Or.inr rfl))

/-- C3 counterexample: the string "Infinity" does not parse as a finite
number, yet `coerce` converts it to the numeric value Infinity instead of
keeping the trimmed string — the code's test is `!Number.isNaN(Number(s))`,
which also accepts the infinite values. -/
theorem c3_counterexample :
    coerce true "Infinity" = JsonVal.num JsNum.inf ∧
    walk {} (XmlNode.elem "x" [] [XmlNode.text "Infinity"]) = JsonVal.num JsNum.inf ∧
    JsonVal.num JsNum.inf ≠ JsonVal.str "Infinity" :=
  ⟨rfl, rfl, by simp⟩

/-- C3 amended: with coercion enabled, for every leaf text: the trimmed
literal "true" coerces to boolean true, "false" to boolean false, "null"
to null, a non-empty string accepted by `Number` (finite decimal/radix
literals, but also the infinite "Infinity"/"+Infinity"/"-Infinity")
coerces to that numeric value, and any other string — including the empty
string, which must not become zero — stays as the trimmed string. -/
theorem c3_coerce_cases (val : String) :
    (jsTrim val = "true" → coerce true val = JsonVal.bool true) ∧
    (jsTrim val = "false" → coerce true val = JsonVal.bool false) ∧
    (jsTrim val = "null" → coerce true val = JsonVal.null) ∧
    (∀ n : JsNum, jsTrim val ≠ "true" → jsTrim val ≠ "false" → jsTrim val ≠ "null" →
      jsTrim val ≠ "" → jsNumber? (jsTrim val) = some n → coerce true val = JsonVal.num n) ∧
    (jsTrim val ≠ "true" → jsTrim val ≠ "false" → jsTrim val ≠ "null" →
      jsNumber? (jsTrim val) = none → coerce true val = JsonVal.str (jsTrim val)) ∧
    (jsTrim val = "" → coerce true val = JsonVal.str (jsTrim val)) := by
  refine ⟨?_, ?_, ?_, ?_, ?_, ?_⟩
  · intro h; simp [coerce, h]
  · intro h; simp [coerce, h]
  · intro h; simp [coerce, h]
  · intro n h1 h2 h3 h4 h5; simp [coerce, h1, h2, h3, h4, h5]
  · intro h1 h2 h3 h5
    by_cases h4 : jsTrim val = ""
    · simp [coerce, h1, h2, h3, h4]
    · simp [coerce, h1, h2, h3, h4, h5]
  · intro h; simp [coerce, h]

/-- C3 witness. -/
theorem c3_witness : coerce true " 42 " = JsonVal.num (JsNum.finite 42 1) :=
  (c3_coerce_cases " 42 ").2.2.2.1 (JsNum.finite 42 1)
    (by decide) (by decide) (by decide) (by decide) (by rfl)

/-- C7 counterexample: in degraded regex mode, a tag with no textual
content and no element children does NOT produce an empty mapping: the
sibling scan treats a body with no nested tag pair as a leaf, so
`parse("<r><a></a></r>")` yields `{ a: "" }` (an empty-string leaf) where
full DOM mode would yield `{ a: {} }` — the two modes do not match on this
edge case. -/
theorem c7_counterexample :
    parseXml DomEnv.noDom (XmlInput.str "<r><a></a></r>") {} =
      JsonVal.obj [("a", JsonVal.str "")] ∧
    JsonVal.obj [("a", JsonVal.str "")] ≠ JsonVal.obj [("a", JsonVal.obj [])] :=
  ⟨rfl, by simp⟩

/-- C7 amended: in full DOM mode (with attribute capture off), every
element whose child nodes contain no text/CDATA and no element children
walks to an empty mapping with zero keys; in degraded regex mode, however,
a tag whose body contains no nested tag pair is treated as a leaf, so an
empty tag yields the empty string instead — the edge-case policies of the
two modes differ here. -/
theorem c7_amended :
    (∀ (opts : XmlOptions) (tag : String) (attrs : List (String × String)) (kids : List XmlNode),
      opts.includeAttributes = false →
      (∀ n ∈ kids, isTextOrCdata n = false) →
      (∀ n ∈ kids, tagOf n = none) →
      walk opts (XmlNode.elem tag attrs kids) = JsonVal.obj []) ∧
    parseXml DomEnv.noDom (XmlInput.str "<r><a></a></r>") {} =
      JsonVal.obj [("a", JsonVal.str "")] := by
  refine ⟨?_, rfl⟩
  intro opts tag attrs kids hia htext htag
  have htO : (!kids.isEmpty && kids.all isTextOrCdata) = false := by
    cases kids with
    | nil => simp
    | cons n rest =>
        simp only [List.all_cons]
        rw [htext n (by simp)]
        simp
  simp only [walk, htO, Bool.false_eq_true, if_false]
  rw [walkChildren_skip opts kids _ htag]
  simp [attrsBase, hia]

/-- C7 witness. -/
theorem c7_witness :
    walk {} (XmlNode.elem "a" [] [XmlNode.comment "c"]) = JsonVal.obj [] :=
  c7_amended.1 {} "a" [] [XmlNode.comment "c"] rfl
    (by intro n hn; simp at hn; subst hn; rfl)
    (by intro n hn; simp at hn; subst hn; rfl)

/-- C4: `unwrap` terminates on every input: iterating the peel step needs no
more than `zsSize t` steps (any fuel of at least `zsSize t` computes the
same answer, so the iteration never exhausts), the node it returns is
terminal (a recognizable schema node that unwraps to itself, i.e. no peel
rule applies to it any more), and a value not recognizable as a schema
node is returned as JS undefined immediately. -/
theorem c4_unwrap_terminates (t : ZS) :
    (∀ f : Nat, zsSize t ≤ f → unwrapF f t = unwrap t) ∧
    (∀ u : ZS, unwrap t = some u → isSchemaB u = true ∧ unwrap u = some u) ∧
    (isSchemaB t = false → unwrap t = none) := by
  refine ⟨?_, ?_, ?_⟩
  · intro f hf; exact unwrapF_eq_unwrap hf
  · intro u h; exact unwrap_terminal (zsSize t) t u le_rfl h
  · intro h
    cases t with
    | raw => rfl
    | mk tn io inner sch ty vt os its vs lv shp ds => simp [isSchemaB] at h

/-- C4 witness. -/
theorem c4_witness :
    unwrapF 7 (zOptional (zNode "ZodString")) = unwrap (zOptional (zNode "ZodString")) ∧
    isSchemaB (zNode "ZodString") = true ∧
    unwrap (zNode "ZodString") = some (zNode "ZodString") := by
  have h := c4_unwrap_terminates (zOptional (zNode "ZodString"))
  refine ⟨h.1 7 (by decide), ?_, ?_⟩
  · exact (h.2.1 (zNode "ZodString") (by rfl)).1
  · exact (h.2.1 (zNode "ZodString") (by rfl)).2

/-- C8 counterexample: `typeToString` on an array of string renders
"string", not "array<string>": a zod v3 array stores its element under
`_def.type`, which is exactly the wrapper link `unwrap` peels, so the
array is unwrapped to its element before the kind switch runs. -/
theorem c8_counterexample :
    typeToString (zArray (zNode "ZodString")) = "string" ∧
    typeToString (zArray (zNode "ZodString")) ≠ "array<string>" :=
  ⟨rfl, by decide⟩

/-- C8 amended: `typeToString` renders a union of string and number as
"string | number"; an array of string renders as its element's rendering
"string" (the `array<...>` branch fires only when the array's `_def.type`
is not a recognizable schema); and every node of unrecognized kind with no
applicable wrapper link renders "unknown"; the function is total (never
throws). -/
theorem c8_type_rendering :
    typeToString (zUnion [zNode "ZodString", zNode "ZodNumber"]) = "string | number" ∧
    typeToString (zArray (zNode "ZodString")) = "string" ∧
    (∀ (tn : String) (vt : Option ZS) (os : Option (List ZS)) (its : List ZS)
        (vs : Option (List String)) (lv : String) (shp : List (String × ZS)) (ds : Option String),
      tn ∉ knownTypeKinds →
      typeToString (ZS.mk tn false none none none vt os its vs lv shp ds) = "unknown") := by
  refine ⟨rfl, rfl, ?_⟩
  intro tn vt os its vs lv shp ds htn
  have hu : unwrap (ZS.mk tn false none none none vt os its vs lv shp ds) =
      some (ZS.mk tn false none none none vt os its vs lv shp ds) := unwrap_done rfl
  obtain ⟨g, hg⟩ : ∃ g, zsSize (ZS.mk tn false none none none vt os its vs lv shp ds) = g + 1 :=
    ⟨zsSize (ZS.mk tn false none none none vt os its vs lv shp ds) - 1,
      by have := zsSize_pos (ZS.mk tn false none none none vt os its vs lv shp ds); omega⟩
  show tts (zsSize (ZS.mk tn false none none none vt os its vs lv shp ds))
      (ZS.mk tn false none none none vt os its vs lv shp ds) = "unknown"
  rw [hg]
  simp only [tts]
  rw [hu]
  dsimp only
  simp [knownTypeKinds] at htn
  push_neg at htn
  obtain ⟨n1, n2, n3, n4, n5, n6, n7, n8, n9, n10, n11, n12, n13, n14, n15, n16, n17, n18⟩ := htn
  simp [n1, n2, n3, n4, n5, n6, n7, n8, n9, n10, n11, n12, n13, n14, n15, n16, n17, n18]

/-- C8 witness. -/
theorem c8_witness :
    typeToString (ZS.mk "ZodNever" false none none none none none [] none "" [] none) =
      "unknown" :=
  c8_type_rendering.2.2 "ZodNever" none none [] none "" [] none (by decide)

/-- C9: for an object-kind schema with N declared top-level fields,
`describe` (`schemaToPrompt`) renders exactly one header line — `Schema:
<description>` when the root has a truthy description, bare `Schema:`
otherwise — followed by at least N field lines, each of the form
`- <path> (<type>, required|optional)` with a ` — <description>` suffix
when a truthy description is present, joined with newlines. -/
theorem c9_schema_prompt_shape
    (schema : ZS) (io : Bool) (inner sch ty vt : Option ZS) (os : Option (List ZS))
    (its : List ZS) (vs : Option (List String)) (lv : String)
    (shape : List (String × ZS)) (ds : Option String)
    (h : unwrap schema = some (ZS.mk "ZodObject" io inner sch ty vt os its vs lv shape ds)) :
    ∃ fieldLines : List String,
      schemaToPrompt schema =
        String.intercalate "\n"
          ((match getDescription schema with
            | some d => if d = "" then "Schema:" else "Schema: " ++ d
            | none => "Schema:") :: fieldLines) ∧
      shape.length ≤ fieldLines.length ∧
      ∀ line ∈ fieldLines, ∃ fi : FieldInfo,
        line = "- " ++ fi.path ++ " (" ++ fi.type ++ ", " ++
          (if fi.optional then "optional" else "required") ++ ")" ++
          (match fi.description with
           | some d => if d = "" then "" else " — " ++ d
           | none => "") := by
  refine ⟨(collectFields schema "").map renderFieldLine, rfl, ?_, ?_⟩
  · rw [List.length_map]
    obtain ⟨g, hg⟩ : ∃ g, zsSize schema = g + 1 :=
      ⟨zsSize schema - 1, by have := zsSize_pos schema; omega⟩
    show shape.length ≤ (cfF (zsSize schema) schema "").length
    rw [hg]
    simp only [cfF]
    rw [h]
    dsimp only
    rw [if_pos rfl]
    apply length_le_flatMap
    intro kv _
    simp
  · intro line hl
    rw [List.mem_map] at hl
    obtain ⟨fi, _, hrender⟩ := hl
    exact ⟨fi, by rw [← hrender]; rfl⟩

/-- C9 witness. -/
theorem c9_witness :
    ∃ fieldLines : List String,
      schemaToPrompt personSchema =
        String.intercalate "\n"
          ((match getDescription personSchema with
            | some d => if d = "" then "Schema:" else "Schema: " ++ d
            | none => "Schema:") :: fieldLines) ∧
      ([("name", ZS.mk "ZodString" false none none none none none [] none "" [] (some "the name")),
        ("age", zOptional (zNode "ZodNumber"))] : List (String × ZS)).length ≤ fieldLines.length ∧
      ∀ line ∈ fieldLines, ∃ fi : FieldInfo,
        line = "- " ++ fi.path ++ " (" ++ fi.type ++ ", " ++
          (if fi.optional then "optional" else "required") ++ ")" ++
          (match fi.description with
           | some d => if d = "" then "" else " — " ++ d
           | none => "") :=
  c9_schema_prompt_shape personSchema false none none none none none [] none ""
    [("name", ZS.mk "ZodString" false none none none none none [] none "" [] (some "the name")),
     ("age", zOptional (zNode "ZodNumber"))]
    (some "a person") (by rfl)
